import Mathlib

/-!
Shallow embedding of the purchase-order extractor in
src/BulkPOItemExtractor.py, and proofs about its item parser, metadata
extractor and cross-document aggregator.

Modelling conventions:
* Python strings are modelled as lists of characters (`Line`); texts are
  assumed ASCII with lines separated by a newline character, so the
  character classes of the regular expressions are the ASCII ones.
* Python floats are modelled by rationals.  Every numeric value handled by
  the program is produced by `float` on a short decimal literal, which the
  rational value represents exactly.
* Each regular expression of the source is compiled by hand into a
  deterministic scanning function.  The leftmost-match and greedy rules of
  the `re` module are resolved statically; wherever greedy backtracking can
  fire, a comment at the definition explains why the committed form below
  computes the same match (or a match with the same numeric value, which is
  all the program observes).
-/

namespace BulkPOItemExtractor

abbrev Line := List Char

/-- ASCII whitespace recognised by Python `str.strip` and the class `\s`. -/
def isPyWS (c : Char) : Bool :=
  c == ' ' || c == '\t' || c == '\n' || c == '\r' ||
    c == Char.ofNat 11 || c == Char.ofNat 12

/-- The class `[^\S\r\n]`: whitespace that is not a line break. -/
def isHWS (c : Char) : Bool :=
  isPyWS c && !(c == '\n') && !(c == '\r')

/-- The class `[\d,]`. -/
def isNumC (c : Char) : Bool := c.isDigit || c == ','

/-- The class `[A-Z]`. -/
def isUpperAZ (c : Char) : Bool := 'A' ≤ c && c ≤ 'Z'

/-- The class `\w` over ASCII text. -/
def isWordC (c : Char) : Bool := c.isAlphanum || c == '_'

/-- Python `str.strip()`. -/
def pyStrip (s : Line) : Line :=
  ((s.dropWhile isPyWS).reverse.dropWhile isPyWS).reverse

def splitNLAux : Line → Line → List Line
  | [], acc => [acc.reverse]
  | '\n' :: rest, acc => acc.reverse :: splitNLAux rest []
  | c :: rest, acc => splitNLAux rest (c :: acc)

/-- Python `str.splitlines` on newline-separated text.  A trailing newline
may produce a final empty chunk; the caller filters empty lines away, so
this matches `splitlines` on the texts in scope. -/
def splitNL (s : Line) : List Line :=
  match s with
  | [] => []
  | _ => splitNLAux s []

/-- Line 93 of the source: strip every line and drop the empty ones. -/
def prepLines (text : Line) : List Line :=
  ((splitNL text).map pyStrip).filter (fun l => !l.isEmpty)

/-- `lines[i]`; the parser only indexes in bounds, the default is inert. -/
def lineAt (lines : List Line) (i : Nat) : Line := lines.getD i []

def digitsToNat (s : Line) : Nat :=
  s.foldl (fun n c => n * 10 + (c.toNat - 48)) 0

/-- Python `float` on the decimal shapes `digits`, `digits.digits`,
`.digits`, `digits.` that the regex groups can produce after comma
removal; `none` models the `ValueError` branch.  The value
`ip.fp` is the exact rational `(ip * 10 ^ k + fp) / 10 ^ k` with `k` the
number of fractional digits, built with `mkRat` so that it evaluates. -/
def pyFloat? (s : Line) : Option ℚ :=
  let ip := s.takeWhile Char.isDigit
  match s.drop ip.length with
  | [] => if ip.isEmpty then none else some (mkRat (digitsToNat ip) 1)
  | '.' :: fp =>
    if fp.all Char.isDigit && !(ip.isEmpty && fp.isEmpty) then
      some (mkRat (digitsToNat ip * 10 ^ fp.length + digitsToNat fp) (10 ^ fp.length))
    else none
  | _ => none

/-- `_to_float` (source lines 76-80): drop commas, strip, parse, and fall
back to `0.0` on failure. -/
def to_float (s : Line) : ℚ :=
  match pyFloat? (pyStrip (s.filter (fun c => !(c == ',')))) with
  | some q => q
  | none => 0

/-- `is_item_start` (line 97-98): `^\s*(\d{3,5})\s+(.+)$` via `re.match` on
an already stripped line, returning the two groups with the second one
stripped (line 107).  `\d{3,5}` must take the whole leading digit run: a
shorter greedy retry ends at a digit, which `\s+` rejects. -/
def is_item_start (l : Line) : Option (Line × Line) :=
  let ds := l.takeWhile Char.isDigit
  if 3 ≤ ds.length ∧ ds.length ≤ 5 then
    match l.drop ds.length with
    | [] => none
    | c :: rest =>
      if isPyWS c then
        let raw := (c :: rest).dropWhile isPyWS
        if raw.isEmpty then none else some (ds, raw)
      else none
  else none

/-- One numeric group `[\d,]+(?:\.\d+)?` anchored at the current position,
with the committed-greedy reading: the `[\d,]+` run and the fractional run
are maximal.  In every pattern of the source the group is followed by
whitespace, a literal starting with a letter, or the end anchor, so a
shorter greedy retry would have to match one of those against a digit or a
comma and always fails; the committed form is exact. -/
def grabNumTok (s : Line) : Option (Line × Line) :=
  let run := s.takeWhile isNumC
  if run.isEmpty then none else
    match s.drop run.length with
    | '.' :: r2 =>
      let fr := r2.takeWhile Char.isDigit
      if fr.isEmpty then some (run, s.drop run.length)
      else some (run ++ '.' :: fr, r2.drop fr.length)
    | r => some (run, r)

/-- `\d+\.\d{3}` anchored at the current position (group of line 113).
`\d+` must take the whole digit run: a shorter retry puts a digit where
`\.` is required. -/
def try3dec (s : Line) : Option Line :=
  let run := s.takeWhile Char.isDigit
  if run.isEmpty then none else
    match s.drop run.length with
    | '.' :: d1 :: d2 :: d3 :: _ =>
      if d1.isDigit && d2.isDigit && d3.isDigit then
        some (run ++ '.' :: [d1, d2, d3])
      else none
    | _ => none

def find3decAux : Line → Nat → Option (Nat × Line)
  | [], _ => none
  | s@(_ :: rest), i =>
    match try3dec s with
    | some m => some (i, m)
    | none => find3decAux rest (i + 1)

/-- `re.search` with pattern `(\d+\.\d{3})` on `raw` (line 113): leftmost match together
with its start offset. -/
def find3dec (s : Line) : Option (Nat × Line) := find3decAux s 0

/-- Case-insensitive literal prefix test (ASCII lowering). -/
def ciStartsWith : Line → Line → Bool
  | [], _ => true
  | _ :: _, [] => false
  | p :: ps, c :: cs => (p.toLower == c.toLower) && ciStartsWith ps cs

/-- `([\d,]+(?:\.\d+)?)[^\S\r\n]*Pcs` with `re.I`, anchored at the current
position (line 120).  The horizontal-whitespace run is maximal: giving a
character back would match whitespace against the literal `P`. -/
def tryPcs1 (s : Line) : Option Line :=
  match grabNumTok s with
  | none => none
  | some (g, rest) =>
    if ciStartsWith ("Pcs".data) (rest.dropWhile isHWS) then some g else none

def findPcs1Aux : Line → Nat → Option (Nat × Line)
  | [], _ => none
  | s@(_ :: rest), i =>
    match tryPcs1 s with
    | some g => some (i, g)
    | none => findPcs1Aux rest (i + 1)

/-- Leftmost match of the same-line `Pcs` pattern with its start offset. -/
def findPcs1 (s : Line) : Option (Nat × Line) := findPcs1Aux s 0

def wordBreakAt : Line → Bool
  | [] => true
  | c :: _ => !isWordC c

/-- The alternation `(?:Pcs|Pieces|Piece|P\.cs)\b` with `re.I` at the
current position.  The branches are pairwise non-ambiguous here because the
program only observes whether some branch matches. -/
def uomAfter (s : Line) : Bool :=
  (ciStartsWith ("Pcs".data) s && wordBreakAt (s.drop 3)) ||
  (ciStartsWith ("Pieces".data) s && wordBreakAt (s.drop 6)) ||
  (ciStartsWith ("Piece".data) s && wordBreakAt (s.drop 5)) ||
  (ciStartsWith ("P.cs".data) s && wordBreakAt (s.drop 4))

/-- `([\d,]+(?:\.\d+)?)\s*(?:Pcs|Pieces|Piece|P\.cs)\b` with `re.I`,
anchored at the current position (line 155). -/
def tryPcs2 (s : Line) : Option Line :=
  match grabNumTok s with
  | none => none
  | some (g, rest) =>
    if uomAfter (rest.dropWhile isPyWS) then some g else none

/-- Leftmost match of the look-ahead `Pcs` pattern; only the group value is
used downstream. -/
def findPcs2 : Line → Option Line
  | [] => none
  | s@(_ :: rest) =>
    match tryPcs2 s with
    | some g => some g
    | none => findPcs2 rest

/-- `re.fullmatch` with pattern `([\d,]+(?:\.\d+)?)` on a line (line 163): the whole line
is one numeric token. -/
def fullNum (l : Line) : Option Line :=
  match grabNumTok l with
  | some (g, []) => some g
  | _ => none

/-- Leftmost case-insensitive occurrence of `Qty` or `Quantity`, returning
the remainder after the label (line 171).  At any one position at most one
of the two branches can match, since the labels differ at their second
character. -/
def findQtyLabel : Line → Option Line
  | [] => none
  | s@(_ :: rest) =>
    if ciStartsWith ("Qty".data) s then some (s.drop 3)
    else if ciStartsWith ("Quantity".data) s then some (s.drop 8)
    else findQtyLabel rest

/-- Value of the group of `(?:Qty|Quantity)[^\d\n\r]*([\d,]+(?:\.\d+)?)` at
the first label occurrence.  Lines contain no line break, so the maximal
`[^\d\n\r]*` run stops exactly at the first digit and the group starts
there.  When the line has no digit after the label the engine can still
backtrack onto a run of commas; such a group strips to the empty string and
`_to_float` turns it into `0.0`, which is the only thing the caller sees,
so it is returned as the value `0` directly. -/
def qtyLabelVal (l : Line) : Option ℚ :=
  match findQtyLabel l with
  | none => none
  | some rest =>
    match rest.dropWhile (fun c => !c.isDigit) with
    | [] => if rest.contains ',' then some 0 else none
    | s => (grabNumTok s).map (fun p => to_float p.1)

/-- `DIY\d+\b` anchored at the current position: the digit run after the
literal must be nonempty and maximal and must be followed by a non-word
character or the end of the line (a shorter greedy retry of `\d+` ends at
a digit, which the trailing `\b` rejects). -/
def tryDIYAt : Line → Option Line
  | 'D' :: 'I' :: 'Y' :: rest =>
    let ds := rest.takeWhile Char.isDigit
    if !ds.isEmpty &&
        (match rest.drop ds.length with
         | [] => true
         | c :: _ => !isWordC c) then
      some ('D' :: 'I' :: 'Y' :: ds)
    else none
  | _ => none

/-- `re.search` with pattern `\bDIY\d+\b` (line 140), case sensitive; the word
boundary before `DIY` is tracked through the scan. -/
def diySearchAux : Bool → Line → Option Line
  | _, [] => none
  | prevWord, c :: rest =>
    match (if prevWord then none else tryDIYAt (c :: rest)) with
    | some d => some d
    | none => diySearchAux (isWordC c) rest

def diySearch (l : Line) : Option Line := diySearchAux false l

/-- Python substring test `DIY in linej` (line 145). -/
def hasSubstr (pat : Line) : Line → Bool
  | [] => pat.isEmpty
  | s@(_ :: rest) => pat.isPrefixOf s || hasSubstr pat rest

/-- `re.search` with pattern `\d` as a Boolean (line 145). -/
def hasDigit (l : Line) : Bool := l.any Char.isDigit

/-- `re.fullmatch` with pattern `\d{5,}` (line 147). -/
def fullDigits5 (l : Line) : Bool := 5 ≤ l.length && l.all Char.isDigit

/-- `re.fullmatch` with pattern `(?i)piece|pieces` (line 184). -/
def isPieceLine (l : Line) : Bool :=
  (ciStartsWith ("piece".data) l && l.length == 5) ||
  (ciStartsWith ("pieces".data) l && l.length == 6)

/-- Leftmost numeric group of `([\d,]+(?:\.\d+)?)` in a line (line 186). -/
def firstNumTok : Line → Option Line
  | [] => none
  | s@(_ :: rest) =>
    match grabNumTok s with
    | some (g, _) => some g
    | none => firstNumTok rest

/-- Count of `re.findall` with pattern `([\d,]+(?:\.\d+)?)` on `raw` (line 201):
non-overlapping leftmost matches.  The fuel is the length of the string,
enough because every match consumes at least one character. -/
def countNumToksAux : Nat → Line → Nat
  | 0, _ => 0
  | _ + 1, [] => 0
  | fuel + 1, s@(c :: rest) =>
    if isNumC c then
      match grabNumTok s with
      | some (_, r) => 1 + countNumToksAux fuel r
      | none => 1 + countNumToksAux fuel rest
    else countNumToksAux fuel rest

def countNumToks (s : Line) : Nat := countNumToksAux s.length s

/-- Does a whole whitespace-delimited token match `[\d,]+(?:\.\d+)?`? -/
def isFullNumTok (t : Line) : Bool :=
  match grabNumTok t with
  | some (_, []) => true
  | _ => false

/-- Decompose a stripped string into (prefix, second-to-last token, last
token), requiring whitespace before both trailing tokens.  This is the
only shape `(\s+[\d,]+(?:\.\d+)?\s+[\d,]+(?:\.\d+)?\s*)$` can take on a
stripped string: each group is delimited by required whitespace or the end
anchor, so the match is exactly the block of the last two tokens, and the
leftmost `\s+` swallows the whole whitespace run before them. -/
def lastTwoSplit (raw : Line) : Option (Line × Line × Line) :=
  let r := raw.reverse
  let t2 := r.takeWhile (fun c => !isPyWS c)
  let r2 := r.drop t2.length
  let w1 := r2.takeWhile isPyWS
  let r3 := r2.drop w1.length
  let t1 := r3.takeWhile (fun c => !isPyWS c)
  let r4 := r3.drop t1.length
  let w2 := r4.takeWhile isPyWS
  if t2.isEmpty || w1.isEmpty || t1.isEmpty || w2.isEmpty then none
  else some ((r4.drop w2.length).reverse, t1.reverse, t2.reverse)

/-- Name cleanup (lines 201-208): when the string holds at least two
numeric groups and ends with a two-numeric-token block, cut the block. -/
def cleanupName (raw : Line) : Line :=
  if 2 ≤ countNumToks raw then
    match lastTwoSplit raw with
    | some (pre, t1, t2) =>
      if isFullNumTok t1 && isFullNumTok t2 then pyStrip pre else raw
    | none => raw
  else raw

/-- Value of the look-ahead `Pcs` candidate of a line (line 155-157). -/
def candPcs (l : Line) : Option ℚ := (findPcs2 l).map to_float

/-- Value of the standalone numeric-line candidate (line 163-165). -/
def candNum (l : Line) : Option ℚ := (fullNum l).map to_float

/-- Value of the `Qty`-label candidate (line 171-173). -/
def candQty (l : Line) : Option ℚ := qtyLabelVal l

/-- A parsed line item (the dict appended at lines 210-215). -/
structure Item where
  item_number : Line
  name : Line
  quantity : ℚ
  diy_code : Line
deriving DecidableEq, Repr

/-- Same-line quantity extraction from the provisional name (lines
111-130): prefer a three-decimal token, then a number followed by `Pcs`;
either match also truncates the name at the match start.  The dangling
`trailing_nums` computation of line 127 has no effect (`pass`). -/
def sameLine (raw0 : Line) : Option ℚ × Line :=
  match find3dec raw0 with
  | some (idx, tok) => (some (to_float tok), pyStrip (raw0.take idx))
  | none =>
    match findPcs1 raw0 with
    | some (idx, g) => (some (to_float g), pyStrip (raw0.take idx))
    | none => (none, raw0)

/-- One per-line quantity update of the look-ahead (lines 152-175): each of
the three candidate patterns is tried only while the quantity is still
unset, and each is accepted only inside the open interval (0, 10000). -/
def qtyStep (qty : Option ℚ) (l : Line) : Option ℚ :=
  let q1 :=
    if qty.isNone then
      match candPcs l with
      | some cand => if 0 < cand ∧ cand < 10000 then some cand else qty
      | none => qty
    else qty
  let q2 :=
    if q1.isNone then
      match candNum l with
      | some cand => if 0 < cand ∧ cand < 10000 then some cand else q1
      | none => q1
    else q1
  let q3 :=
    if q2.isNone then
      match candQty l with
      | some cand => if 0 < cand ∧ cand < 10000 then some cand else q2
      | none => q2
    else q2
  q3

/-- The per-line secondary-code update of the look-ahead (lines 138-150):
a one-token `DIY` code on the line, or a split code whose digits come from
the next line when that line is purely five or more digits, in which case
the cursor is advanced over the consumed line. -/
def diyDetect (lines : List Line) (n j : Nat) (diy : Line) : Line × Nat :=
  if diy.isEmpty then
    match diySearch (lineAt lines j) with
    | some d => (d, j)
    | none =>
      if hasSubstr ("DIY".data) (lineAt lines j) && !hasDigit (lineAt lines j) then
        if j + 1 < n then
          if fullDigits5 (lineAt lines (j + 1)) then
            (("DIY".data) ++ pyStrip (lineAt lines (j + 1)), j + 1)
          else (diy, j)
        else (diy, j)
      else (diy, j)
  else (diy, j)

/-- The look-ahead loop (lines 133-179).  State is the cursor `j`, the
secondary code and the optional quantity; the loop stops at the window end
`wE`, at the next item-start line, or as soon as both fields are known.
The quantity checks read the line the iteration started on even when the
code detection consumed the following line.  The fuel only bounds the
number of iterations; since the cursor grows each round, fuel `wE` is
enough for every reachable call. -/
def laLoop (lines : List Line) (n wE : Nat) :
    Nat → Nat → Line → Option ℚ → Nat × Line × Option ℚ
  | 0, j, diy, qty => (j, diy, qty)
  | fuel + 1, j, diy, qty =>
    if j < wE ∧ is_item_start (lineAt lines j) = none then
      let dj := diyDetect lines n j diy
      let qty2 := qtyStep qty (lineAt lines j)
      if dj.1 ≠ [] ∧ qty2 ≠ none then (dj.2, dj.1, qty2)
      else laLoop lines n wE fuel (dj.2 + 1) dj.1 qty2
    else (j, diy, qty)

/-- The final quantity fallback (lines 182-191): scan the window for a line
that is exactly `Piece`/`Pieces` and take the first number on the previous
line, subject to the same range check; an out-of-range hit keeps
scanning.  Called with fuel `wE - (i + 1)`, the exact iteration count of
the Python `range(i + 1, window_end)`. -/
def pieceFallback (lines : List Line) (i : Nat) : Nat → Nat → Option ℚ
  | 0, _ => none
  | fuel + 1, k =>
    if isPieceLine (lineAt lines k) then
      let prev := if i + 1 ≤ k - 1 then lineAt lines (k - 1) else []
      match firstNumTok prev with
      | some g =>
        if 0 < to_float g ∧ to_float g < 10000 then some (to_float g)
        else pieceFallback lines i fuel (k + 1)
      | none => pieceFallback lines i fuel (k + 1)
    else pieceFallback lines i fuel (k + 1)

/-- Processing of one detected item at line `i` (lines 106-218): same-line
extraction, look-ahead, piece fallback, default quantity `0`, name
cleanup.  Returns the item and the cursor position the outer scan resumes
from. -/
def processItem (lines : List Line) (n i : Nat) (num raw0 : Line) : Item × Nat :=
  let sl := sameLine raw0
  let wE := min n (i + 50)
  let la := laLoop lines n wE wE (i + 1) [] sl.1
  let qty2 :=
    match la.2.2 with
    | some q => some q
    | none => pieceFallback lines i (wE - (i + 1)) (i + 1)
  (⟨num, cleanupName sl.2, qty2.getD 0, la.2.1⟩, la.1)

/-- The outer scan loop (lines 100-218).  The fuel bounds the number of
iterations; `scan_stable` below shows any fuel of at least `n - i` gives
the same result, which is the termination argument of the claim list. -/
def scanLoop (lines : List Line) (n : Nat) : Nat → Nat → List Item
  | 0, _ => []
  | fuel + 1, i =>
    if i < n then
      match is_item_start (lineAt lines i) with
      | none => scanLoop lines n fuel (i + 1)
      | some (num, raw0) =>
        let pj := processItem lines n i num raw0
        pj.1 :: scanLoop lines n fuel pj.2
    else []

/-- `parse_items_from_text` (lines 82-221). -/
def parse_items_from_text (text : Line) : List Item :=
  let lines := prepLines text
  scanLoop lines lines.length lines.length 0

/-! ### Metadata extraction (`extract_po_metadata`, lines 53-74) -/

/-- Generic position scan used to resolve `re.search`: try the pattern at
every suffix, leftmost first. -/
def searchPos (tryAt : Line → Option α) : Line → Option α
  | [] => tryAt []
  | s@(_ :: rest) =>
    match tryAt s with
    | some a => some a
    | none => searchPos tryAt rest

/-- `re.search` with pattern `Document Ref:\s*(\d+)` (line 55): after the first
literal occurrence that is followed, past maximal whitespace, by at least
one digit, the group is the maximal digit run. -/
def docRefSearch (text : Line) : Option Line :=
  searchPos (fun s =>
    if ("Document Ref:".data).isPrefixOf s then
      let rest := (s.drop 13).dropWhile isPyWS
      let ds := rest.takeWhile Char.isDigit
      if ds.isEmpty then none else some ds
    else none) text

/-- Remainder of the text after the first case-insensitive occurrence of
`Vendor`. -/
def afterVendor : Line → Option Line
  | [] => none
  | s@(_ :: rest) =>
    if ciStartsWith ("Vendor".data) s then some (s.drop 6)
    else afterVendor rest

/-- Split at the first newline, returning what follows it. -/
def afterFirstNL (s : Line) : Option Line :=
  match s.dropWhile (fun c => !(c == '\n')) with
  | '\n' :: r => some r
  | _ => none

/-- Group 1 of `re.search` with pattern `Vendor.*?\n(.*?)\n` under DOTALL and IGNORECASE (line
59): the lazy `.*?` pieces stop at the first newline they meet, so the
group is the text between the first and second newline after the first
`Vendor` occurrence; later occurrences have no more newlines after them
than the first, so the first occurrence decides matching. -/
def vendorNextLine (text : Line) : Option Line :=
  match afterVendor text with
  | none => none
  | some rest =>
    match afterFirstNL rest with
    | none => none
    | some afterNL =>
      if afterNL.contains '\n' then
        some (afterNL.takeWhile (fun c => !(c == '\n')))
      else none

/-- One `\s*-\s*[A-Z]+` segment of the location pattern at the current
position, returning the matched characters and the remainder. -/
def sepSeg (s : Line) : Option (Line × Line) :=
  let w1 := s.takeWhile isPyWS
  match s.drop w1.length with
  | '-' :: r2 =>
    let w2 := r2.takeWhile isPyWS
    let seg := (r2.drop w2.length).takeWhile isUpperAZ
    if seg.isEmpty then none
    else some (w1 ++ '-' :: (w2 ++ seg), (r2.drop w2.length).drop seg.length)
  | _ => none

/-- The greedy star `(?:\s*-\s*[A-Z]+)*`; the fuel is the remaining string
length, enough because each segment consumes at least two characters. -/
def chainSegs : Nat → Line → Line
  | 0, _ => []
  | fuel + 1, s =>
    match sepSeg s with
    | some (m, rest) => m ++ chainSegs fuel rest
    | none => []

/-- `[A-Z]{2,3}\s*-\s*[A-Z]+(?:\s*-\s*[A-Z]+)*` at the current position
(line 62).  The leading uppercase run must be taken whole and have length
two or three: leaving letters behind puts an uppercase letter where `\s*-`
needs a dash. -/
def tryLoc (s : Line) : Option Line :=
  let run := s.takeWhile isUpperAZ
  if run.length = 2 ∨ run.length = 3 then
    match sepSeg (s.drop run.length) with
    | some (m, rest) => some (run ++ m ++ chainSegs rest.length rest)
    | none => none
  else none

/-- Leftmost match of the location pattern. -/
def locSearch : Line → Option Line := searchPos tryLoc

/-- `re.search` with pattern `PO Date:\s*(\d{2}\.\d{2}\.\d{4})` (line 66). -/
def poDateSearch (text : Line) : Option Line :=
  searchPos (fun s =>
    if ("PO Date:".data).isPrefixOf s then
      match (s.drop 8).dropWhile isPyWS with
      | a :: b :: '.' :: c :: d :: '.' :: e :: f :: g :: h :: _ =>
        if [a, b, c, d, e, f, g, h].all Char.isDigit then
          some [a, b, '.', c, d, '.', e, f, g, h]
        else none
      | _ => none
    else none) text

/-- `re.search` with pattern `Total Including Sales Tax\s*([\d,]+\.?\d*)` (line
70): group is the maximal `[\d,]` run plus an optional dot and maximal
digit run. -/
def totalSearch (text : Line) : Option Line :=
  searchPos (fun s =>
    if ("Total Including Sales Tax".data).isPrefixOf s then
      let rest := (s.drop 25).dropWhile isPyWS
      let run := rest.takeWhile isNumC
      if run.isEmpty then none else
        match rest.drop run.length with
        | '.' :: r2 => some (run ++ '.' :: r2.takeWhile Char.isDigit)
        | _ => some run
    else none) text

/-- `extract_po_metadata` (lines 53-74): four independent labelled
searches; a key is present exactly when its pattern matches. -/
def extract_po_metadata (text : Line) : List (Line × Line) :=
  (match docRefSearch text with
   | some ds => [(("po_number".data : Line), pyStrip ds)]
   | none => []) ++
  (match vendorNextLine text with
   | some l2 =>
     match locSearch (pyStrip l2) with
     | some loc => [(("vendor_location".data : Line), pyStrip loc)]
     | none => []
   | none => []) ++
  (match poDateSearch text with
   | some d => [(("po_date".data : Line), d)]
   | none => []) ++
  (match totalSearch text with
   | some t => [(("total_amount".data : Line), t)]
   | none => [])

/-! ### Document processing and aggregation (lines 228-250) -/

/-- The dict returned by `process_single_pdf` (lines 228-238). -/
structure DocumentResult where
  filename : Line
  success : Bool
  items : List Item
  metadata : List (Line × Line)
deriving DecidableEq, Repr

/-- Input of one document: the two extraction strategies are external
collaborators, so a document is modelled by the filename together with the
text each strategy would return. -/
structure PdfInput where
  filename : Line
  text_pdfplumber : Line
  text_pypdf2 : Line
deriving DecidableEq, Repr

/-- `process_single_pdf` (lines 228-238): fall back to the second
extractor on empty text; with no text at all, record a failure; otherwise
`success` is the truthiness of the parsed item list. -/
def process_single_pdf (inp : PdfInput) : DocumentResult :=
  let text := if inp.text_pdfplumber.isEmpty then inp.text_pypdf2 else inp.text_pdfplumber
  if text.isEmpty then ⟨inp.filename, false, [], []⟩
  else
    let items := parse_items_from_text text
    ⟨inp.filename, !items.isEmpty, items, extract_po_metadata text⟩

/-- One aggregate entry of `combined_items` (lines 14-19). -/
structure AggEntry where
  total_quantity : ℚ
  po_files : List Line
  quantities_per_po : List (Line × ℚ)
  diy_code : Line
deriving DecidableEq, Repr

def emptyEntry : AggEntry := ⟨0, [], [], []⟩

/-- The aggregate map; `defaultdict` semantics are modelled by a total
function defaulting to the empty entry. -/
abbrev Agg := Line → AggEntry

/-- The aggregation key (line 246): the name, suffixed with the code in
parentheses when a code is present. -/
def itemKey (it : Item) : Line :=
  if it.diy_code.isEmpty then it.name
  else it.name ++ (" (".data) ++ it.diy_code ++ (")".data)

/-- Python dict assignment `m[k] = v`: overwrite in place or append. -/
def dictSet (m : List (Line × ℚ)) (k : Line) (v : ℚ) : List (Line × ℚ) :=
  match m with
  | [] => [(k, v)]
  | (k0, v0) :: rest =>
    if k0 = k then (k, v) :: rest else (k0, v0) :: dictSet rest k v

/-- Folding one item into the aggregate map (lines 246-250). -/
def foldItem (fname : Line) (agg : Agg) (it : Item) : Agg :=
  let k := itemKey it
  let e := agg k
  let e2 : AggEntry :=
    ⟨e.total_quantity + it.quantity,
     e.po_files ++ [fname],
     dictSet e.quantities_per_po fname it.quantity,
     it.diy_code⟩
  fun k2 => if k2 = k then e2 else agg k2

/-- Folding one document result into the aggregate map (lines 244-250):
only successful results with a nonempty item list contribute. -/
def foldResult (agg : Agg) (r : DocumentResult) : Agg :=
  if r.success = true ∧ r.items ≠ [] then r.items.foldl (foldItem r.filename) agg
  else agg

/-- The aggregate map built from a list of document results. -/
def aggregateResults (rs : List DocumentResult) : Agg :=
  rs.foldl foldResult (fun _ => emptyEntry)

/-- `process_all_pdfs` (lines 240-250): record every result in order and
fold the successful ones into the combined map. -/
def process_all_pdfs (inputs : List PdfInput) : List DocumentResult × Agg :=
  let rs := inputs.map process_single_pdf
  (rs, aggregateResults rs)

/-- Sum of the per-document quantity column of an entry. -/
def sumVals (m : List (Line × ℚ)) : ℚ := (m.map Prod.snd).sum

/-! ### Structural lemmas about the scanning loops -/

theorem qtyStep_some (q : ℚ) (l : Line) : qtyStep (some q) l = some q := by
  simp [qtyStep]

theorem diyDetect_snd (lines : List Line) (n j : Nat) (diy : Line) :
    (diyDetect lines n j diy).2 = j ∨
      ((diyDetect lines n j diy).2 = j + 1 ∧
        fullDigits5 (lineAt lines (j + 1)) = true) := by
  unfold diyDetect
  repeat' split
  all_goals simp_all

theorem laLoop_j_mono (lines : List Line) (n wE fuel : Nat) :
    ∀ j diy qty, j ≤ (laLoop lines n wE fuel j diy qty).1 := by
  induction fuel with
  | zero => intro j d q; simp [laLoop]
  | succ fuel ih =>
    intro j d q
    simp only [laLoop]
    split
    · split
      · rcases diyDetect_snd lines n j d with h | ⟨h, _⟩ <;> simp [h]
      · have h1 := ih ((diyDetect lines n j d).2 + 1) (diyDetect lines n j d).1
          (qtyStep q (lineAt lines j))
        rcases diyDetect_snd lines n j d with h | ⟨h, _⟩ <;> omega
    · exact le_refl j

theorem laLoop_qty_some (lines : List Line) (n wE fuel : Nat) (q : ℚ) :
    ∀ j diy, (laLoop lines n wE fuel j diy (some q)).2.2 = some q := by
  induction fuel with
  | zero => intro j d; simp [laLoop]
  | succ fuel ih =>
    intro j d
    simp only [laLoop]
    split
    · rw [qtyStep_some]
      split
      · rfl
      · exact ih _ _
    · rfl

theorem takeWhile_all (p : Char → Bool) :
    ∀ l : Line, l.all p = true → l.takeWhile p = l := by
  intro l h
  induction l with
  | nil => rfl
  | cons c rest ih =>
    simp only [List.all_cons, Bool.and_eq_true] at h
    simp [List.takeWhile_cons, h.1, ih h.2]

theorem fullDigits5_not_start (l : Line) (h : fullDigits5 l = true) :
    is_item_start l = none := by
  unfold fullDigits5 at h
  rw [Bool.and_eq_true] at h
  have hall := h.2
  have hlen : 5 ≤ l.length := by
    have := h.1
    simpa using this
  simp only [is_item_start]
  rw [takeWhile_all Char.isDigit l hall]
  split
  · next hcond =>
    have h5 : l.length = 5 := by omega
    rw [List.drop_length]
  · rfl

theorem laLoop_le_target (lines : List Line) (n wE t : Nat) (pr : Line × Line)
    (ht : is_item_start (lineAt lines t) = some pr) (fuel : Nat) :
    ∀ j diy qty, j ≤ t → (laLoop lines n wE fuel j diy qty).1 ≤ t := by
  induction fuel with
  | zero => intro j d q hj; simpa [laLoop] using hj
  | succ fuel ih =>
    intro j d q hj
    simp only [laLoop]
    split
    · next hcond =>
      have hjt : j < t := by
        rcases Nat.lt_or_ge j t with h | h
        · exact h
        · exfalso
          have : j = t := by omega
          rw [this] at hcond
          rw [hcond.2] at ht
          exact Option.noConfusion ht
      have hd2 : (diyDetect lines n j d).2 ≤ t := by
        rcases diyDetect_snd lines n j d with h | ⟨h, hfull⟩
        · omega
        · have hn := fullDigits5_not_start _ hfull
          have : j + 1 ≠ t := by
            intro he
            rw [he] at hn
            rw [hn] at ht
            exact Option.noConfusion ht
          omega
      split
      · exact hd2
      · rcases diyDetect_snd lines n j d with h | ⟨h, hfull⟩
        · exact ih _ _ _ (by omega)
        · have hn := fullDigits5_not_start _ hfull
          have : j + 1 ≠ t := by
            intro he
            rw [he] at hn
            rw [hn] at ht
            exact Option.noConfusion ht
          exact ih _ _ _ (by omega)
    · exact hj

theorem processItem_snd (lines : List Line) (n i : Nat) (num raw0 : Line) :
    (processItem lines n i num raw0).2 =
      (laLoop lines n (min n (i + 50)) (min n (i + 50)) (i + 1) [] (sameLine raw0).1).1 :=
  rfl

theorem processItem_snd_ge (lines : List Line) (n i : Nat) (num raw0 : Line) :
    i + 1 ≤ (processItem lines n i num raw0).2 := by
  rw [processItem_snd]
  exact laLoop_j_mono lines n (min n (i + 50)) (min n (i + 50)) (i + 1) [] (sameLine raw0).1

theorem scan_stable (lines : List Line) (f1 : Nat) :
    ∀ f2 i, lines.length - i ≤ f1 → lines.length - i ≤ f2 →
      scanLoop lines lines.length f1 i = scanLoop lines lines.length f2 i := by
  induction f1 with
  | zero =>
    intro f2 i h1 _
    cases f2 with
    | zero => rfl
    | succ f2 =>
      simp only [scanLoop]
      rw [if_neg (by omega)]
  | succ f1 ih =>
    intro f2 i h1 h2
    by_cases hi : i < lines.length
    · cases f2 with
      | zero => omega
      | succ f2 =>
        simp only [scanLoop]
        rw [if_pos hi, if_pos hi]
        cases hstart : is_item_start (lineAt lines i) with
        | none => exact ih f2 (i + 1) (by omega) (by omega)
        | some pr =>
          obtain ⟨num, raw0⟩ := pr
          have hge := processItem_snd_ge lines lines.length i num raw0
          simp only []
          congr 1
          exact ih f2 _ (by omega) (by omega)
    · cases f2 with
      | zero =>
        simp only [scanLoop]
        rw [if_neg hi]
      | succ f2 =>
        simp only [scanLoop]
        rw [if_neg hi, if_neg hi]

theorem getD_mem {α : Type} (l : List α) (i : Nat) (d : α) (h : i < l.length) :
    l.getD i d ∈ l := by
  induction l generalizing i with
  | nil => simp at h
  | cons a rest ih =>
    cases i with
    | zero => simp [List.getD_cons_zero]
    | succ i =>
      rw [List.getD_cons_succ]
      exact List.mem_cons_of_mem a (ih i (by simpa using h))

theorem scanLoop_nil (lines : List Line)
    (h : ∀ l ∈ lines, is_item_start l = none) :
    ∀ f i, scanLoop lines lines.length f i = [] := by
  intro f
  induction f with
  | zero => intro i; rfl
  | succ f ih =>
    intro i
    simp only [scanLoop]
    split
    · next hi =>
      rw [h (lineAt lines i) (getD_mem lines i [] hi)]
      exact ih (i + 1)
    · rfl

theorem mem_scan_of_start (lines : List Line) (t : Nat) (num raw0 : Line)
    (ht : is_item_start (lineAt lines t) = some (num, raw0)) (htn : t < lines.length)
    (f : Nat) :
    ∀ i, i ≤ t → lines.length - i ≤ f →
      (processItem lines lines.length t num raw0).1 ∈ scanLoop lines lines.length f i := by
  induction f with
  | zero => intro i hit hf; exfalso; omega
  | succ f ih =>
    intro i hit hf
    have hi : i < lines.length := by omega
    simp only [scanLoop]
    rw [if_pos hi]
    cases hstart : is_item_start (lineAt lines i) with
    | none =>
      have : i ≠ t := by
        intro he
        rw [he, ht] at hstart
        exact Option.noConfusion hstart
      exact ih (i + 1) (by omega) (by omega)
    | some pr =>
      obtain ⟨num2, raw2⟩ := pr
      by_cases he : i = t
      · subst he
        rw [ht] at hstart
        injection hstart with h1
        injection h1 with h2 h3
        subst h2
        subst h3
        exact List.mem_cons_self _ _
      · have hit2 : i < t := by omega
        apply List.mem_cons_of_mem
        have hj1 := processItem_snd_ge lines lines.length i num2 raw2
        have hj2 : (processItem lines lines.length i num2 raw2).2 ≤ t := by
          rw [processItem_snd]
          exact laLoop_le_target lines lines.length (min lines.length (i + 50)) t
            (num, raw0) ht _ _ _ _ (by omega)
        exact ih _ hj2 (by omega)

/-! ### Aggregation lemmas -/

/-- Total quantity contributed to key `k` by a list of items. -/
def itemsTotal (k : Line) (items : List Item) : ℚ :=
  ((items.filter (fun it => itemKey it = k)).map Item.quantity).sum

/-- Total quantity contributed to key `k` by one document result. -/
def docTotal (k : Line) (r : DocumentResult) : ℚ :=
  if r.success = true ∧ r.items ≠ [] then itemsTotal k r.items else 0

theorem foldItem_apply (f : Line) (agg : Agg) (it : Item) (k : Line) :
    foldItem f agg it k =
      if k = itemKey it then
        ⟨(agg (itemKey it)).total_quantity + it.quantity,
         (agg (itemKey it)).po_files ++ [f],
         dictSet (agg (itemKey it)).quantities_per_po f it.quantity,
         it.diy_code⟩
      else agg k := rfl

theorem itemsTotal_cons (k : Line) (it : Item) (rest : List Item) :
    itemsTotal k (it :: rest) =
      (if itemKey it = k then it.quantity else 0) + itemsTotal k rest := by
  simp only [itemsTotal, List.filter_cons]
  split
  · next h =>
    rw [if_pos (by simpa using h)]
    simp
  · next h =>
    rw [if_neg (by simpa using h)]
    simp

theorem foldItems_total (f : Line) :
    ∀ (items : List Item) (agg : Agg) (k : Line),
      ((items.foldl (foldItem f) agg) k).total_quantity =
        (agg k).total_quantity + itemsTotal k items := by
  intro items
  induction items with
  | nil => intro agg k; simp [itemsTotal]
  | cons it rest ih =>
    intro agg k
    rw [List.foldl_cons, ih, foldItem_apply, itemsTotal_cons]
    by_cases hk : k = itemKey it
    · subst hk
      rw [if_pos rfl, if_pos rfl]
      simp only []
      ring
    · rw [if_neg hk, if_neg (fun h => hk h.symm)]
      ring

theorem foldResult_total (agg : Agg) (r : DocumentResult) (k : Line) :
    ((foldResult agg r) k).total_quantity = (agg k).total_quantity + docTotal k r := by
  unfold foldResult docTotal
  split
  · rw [foldItems_total]
  · simp

theorem aggregate_total (k : Line) :
    ∀ (rs : List DocumentResult) (agg : Agg),
      ((rs.foldl foldResult agg) k).total_quantity =
        (agg k).total_quantity + (rs.map (docTotal k)).sum := by
  intro rs
  induction rs with
  | nil => intro agg; simp
  | cons r rest ih =>
    intro agg
    rw [List.foldl_cons, ih, foldResult_total, List.map_cons, List.sum_cons]
    ring

theorem dictSet_not_mem (m : List (Line × ℚ)) (f : Line) (v : ℚ)
    (h : f ∉ m.map Prod.fst) : dictSet m f v = m ++ [(f, v)] := by
  induction m with
  | nil => rfl
  | cons p rest ih =>
    obtain ⟨k0, v0⟩ := p
    simp only [List.map_cons, List.mem_cons] at h
    push_neg at h
    simp only [dictSet]
    rw [if_neg (fun he => h.1 he.symm), ih h.2]
    rfl

theorem sumVals_append_single (m : List (Line × ℚ)) (f : Line) (v : ℚ) :
    sumVals (m ++ [(f, v)]) = sumVals m + v := by
  simp [sumVals]

/-- Folding the items of one fresh document preserves the
per-document-sum invariant, and any new column entry carries the new
filename. -/
theorem foldItems_inv (f : Line) :
    ∀ (items : List Item) (agg : Agg),
      (items.map itemKey).Nodup →
      (∀ k, (agg k).total_quantity = sumVals (agg k).quantities_per_po) →
      (∀ it ∈ items, f ∉ ((agg (itemKey it)).quantities_per_po.map Prod.fst)) →
      (∀ k, ((items.foldl (foldItem f) agg) k).total_quantity =
          sumVals ((items.foldl (foldItem f) agg) k).quantities_per_po) ∧
      (∀ k p, p ∈ ((items.foldl (foldItem f) agg) k).quantities_per_po →
          p ∈ (agg k).quantities_per_po ∨ p.1 = f) := by
  intro items
  induction items with
  | nil =>
    intro agg _ hinv _
    exact ⟨hinv, fun k p hp => Or.inl hp⟩
  | cons it rest ih =>
    intro agg hnd hinv hfresh
    rw [List.map_cons, List.nodup_cons] at hnd
    have hffirst : f ∉ ((agg (itemKey it)).quantities_per_po.map Prod.fst) :=
      hfresh it (List.mem_cons_self _ _)
    have hset : dictSet (agg (itemKey it)).quantities_per_po f it.quantity =
        (agg (itemKey it)).quantities_per_po ++ [(f, it.quantity)] :=
      dictSet_not_mem _ _ _ hffirst
    have hinv2 : ∀ k, ((foldItem f agg it) k).total_quantity =
        sumVals ((foldItem f agg it) k).quantities_per_po := by
      intro k
      rw [foldItem_apply]
      by_cases hk : k = itemKey it
      · rw [if_pos hk]
        simp only []
        rw [hset, sumVals_append_single, hinv (itemKey it)]
      · rw [if_neg hk]
        exact hinv k
    have hfresh2 : ∀ it2 ∈ rest,
        f ∉ (((foldItem f agg it) (itemKey it2)).quantities_per_po.map Prod.fst) := by
      intro it2 h2
      have hne : itemKey it2 ≠ itemKey it := by
        intro he
        exact hnd.1 (he ▸ List.mem_map_of_mem itemKey h2)
      rw [foldItem_apply, if_neg hne]
      exact hfresh it2 (List.mem_cons_of_mem _ h2)
    obtain ⟨ha, hb⟩ := ih (foldItem f agg it) hnd.2 hinv2 hfresh2
    constructor
    · intro k
      rw [List.foldl_cons]
      exact ha k
    · intro k p hp
      rw [List.foldl_cons] at hp
      rcases hb k p hp with h | h
      · rw [foldItem_apply] at h
        by_cases hk : k = itemKey it
        · rw [if_pos hk] at h
          simp only [] at h
          rw [hset] at h
          rcases List.mem_append.mp h with h | h
          · exact Or.inl (by rw [hk]; exact h)
          · right
            have : p = (f, it.quantity) := by simpa using h
            rw [this]
        · rw [if_neg hk] at h
          exact Or.inl h
      · exact Or.inr h

/-- The per-document-sum invariant is preserved by folding any list of
results whose filenames are fresh and pairwise distinct and whose item
keys are distinct within each document. -/
theorem aggregate_inv :
    ∀ (rs : List DocumentResult) (agg : Agg) (seen : List Line),
      (∀ k, (agg k).total_quantity = sumVals (agg k).quantities_per_po) →
      (∀ k p, p ∈ (agg k).quantities_per_po → p.1 ∈ seen) →
      (rs.map DocumentResult.filename).Nodup →
      (∀ r ∈ rs, r.filename ∉ seen) →
      (∀ r ∈ rs, (r.items.map itemKey).Nodup) →
      ∀ k, ((rs.foldl foldResult agg) k).total_quantity =
        sumVals ((rs.foldl foldResult agg) k).quantities_per_po := by
  intro rs
  induction rs with
  | nil =>
    intro agg seen hinv _ _ _ _ k
    exact hinv k
  | cons r rest ih =>
    intro agg seen hinv hseen hnd hfresh hkeys
    rw [List.map_cons, List.nodup_cons] at hnd
    rw [List.foldl_cons]
    by_cases hgate : r.success = true ∧ r.items ≠ []
    · have hf : ∀ it ∈ r.items,
          r.filename ∉ ((agg (itemKey it)).quantities_per_po.map Prod.fst) := by
        intro it _ hmem
        obtain ⟨p, hp, hp2⟩ := List.mem_map.mp hmem
        exact hfresh r (List.mem_cons_self _ _) (hp2 ▸ hseen _ p hp)
      obtain ⟨ha, hb⟩ := foldItems_inv r.filename r.items agg
        (hkeys r (List.mem_cons_self _ _)) hinv hf
      have hfr : foldResult agg r = r.items.foldl (foldItem r.filename) agg := by
        unfold foldResult
        rw [if_pos hgate]
      rw [hfr]
      apply ih _ (seen ++ [r.filename]) ha
      · intro k p hp
        rcases hb k p hp with h | h
        · exact List.mem_append.mpr (Or.inl (hseen k p h))
        · exact List.mem_append.mpr (Or.inr (by simp [h]))
      · exact hnd.2
      · intro r2 h2
        rw [List.mem_append]
        push_neg
        constructor
        · exact hfresh r2 (List.mem_cons_of_mem _ h2)
        · intro he
          rw [List.mem_singleton] at he
          exact hnd.1 (he ▸ List.mem_map_of_mem DocumentResult.filename h2)
      · intro r2 h2
        exact hkeys r2 (List.mem_cons_of_mem _ h2)
    · have hfr : foldResult agg r = agg := by
        unfold foldResult
        rw [if_neg hgate]
      rw [hfr]
      exact ih agg seen hinv hseen hnd.2
        (fun r2 h2 => hfresh r2 (List.mem_cons_of_mem _ h2))
        (fun r2 h2 => hkeys r2 (List.mem_cons_of_mem _ h2))

/-! ### Shape of a recovered secondary code -/

theorem all_takeWhile (p : Char → Bool) : ∀ l : Line, (l.takeWhile p).all p = true := by
  intro l
  induction l with
  | nil => rfl
  | cons c rest ih =>
    by_cases hc : p c = true
    · simp [List.takeWhile_cons, hc, ih]
    · simp [List.takeWhile_cons, hc]

theorem tryDIYAt_shape (s d : Line) (h : tryDIYAt s = some d) :
    ∃ ds, d = 'D' :: 'I' :: 'Y' :: ds ∧ ds ≠ [] ∧ ds.all Char.isDigit = true := by
  unfold tryDIYAt at h
  split at h
  · next rest =>
    dsimp only [] at h
    split at h
    · next hcond =>
      rw [Bool.and_eq_true] at hcond
      refine ⟨rest.takeWhile Char.isDigit, (Option.some.inj h).symm, ?_, all_takeWhile _ _⟩
      intro he
      rw [he] at hcond
      simp at hcond
    · exact absurd h (by simp)
  · exact absurd h (by simp)

theorem diySearchAux_shape :
    ∀ (s : Line) (b : Bool) (d : Line), diySearchAux b s = some d →
      ∃ ds, d = 'D' :: 'I' :: 'Y' :: ds ∧ ds ≠ [] ∧ ds.all Char.isDigit = true := by
  intro s
  induction s with
  | nil =>
    intro b d h
    exact absurd h (by simp [diySearchAux])
  | cons c rest ih =>
    intro b d h
    simp only [diySearchAux] at h
    cases hb : (if b then none else tryDIYAt (c :: rest)) with
    | some d2 =>
      rw [hb] at h
      have hd : d2 = d := Option.some.inj h
      subst hd
      cases b with
      | true => simp at hb
      | false =>
        rw [if_neg (by simp)] at hb
        exact tryDIYAt_shape _ _ hb
    | none =>
      rw [hb] at h
      exact ih _ _ h

/-- Every code found by the one-token search is the literal prefix
followed by a nonempty digit run. -/
theorem diySearch_shape (l d : Line) (h : diySearch l = some d) :
    ∃ ds, d = 'D' :: 'I' :: 'Y' :: ds ∧ ds ≠ [] ∧ ds.all Char.isDigit = true :=
  diySearchAux_shape l false d h

/-! ### The spec-worded look-ahead quantity priority -/

/-- First candidate in the list passing the range check; a failing or
absent candidate falls through to the later ones. -/
def firstValid : List (Option ℚ) → Option ℚ
  | [] => none
  | c :: rest =>
    match c with
    | some v => if 0 < v ∧ v < 10000 then some v else firstValid rest
    | none => firstValid rest

/-- The quantity selection for one look-ahead line as the spec words it:
strategies (a) number plus unit token, (b) whole-line numeric token, (c)
labelled number, in this order, each accepted only in (0, 10000). -/
def specQtyPriority (l : Line) : Option ℚ :=
  firstValid [candPcs l, candNum l, candQty l]

theorem qtyStep_none_eq (l : Line) : qtyStep none l = specQtyPriority l := by
  unfold qtyStep specQtyPriority
  cases hA : candPcs l with
  | some a =>
    by_cases ha : 0 < a ∧ a < 10000
    · simp [firstValid, hA, ha]
    · cases hB : candNum l with
      | some b =>
        by_cases hb : 0 < b ∧ b < 10000
        · simp [firstValid, hA, ha, hB, hb]
        · cases hC : candQty l with
          | some c => simp [firstValid, hA, ha, hB, hb, hC]
          | none => simp [firstValid, hA, ha, hB, hb, hC]
      | none =>
        cases hC : candQty l with
        | some c => simp [firstValid, hA, ha, hB, hC]
        | none => simp [firstValid, hA, ha, hB, hC]
  | none =>
    cases hB : candNum l with
    | some b =>
      by_cases hb : 0 < b ∧ b < 10000
      · simp [firstValid, hA, hB, hb]
      · cases hC : candQty l with
        | some c => simp [firstValid, hA, hB, hb, hC]
        | none => simp [firstValid, hA, hB, hb, hC]
    | none =>
      cases hC : candQty l with
      | some c => simp [firstValid, hA, hB, hC]
      | none => simp [firstValid, hA, hB, hC]

theorem qtyStep_none_reject (l : Line) (v : ℚ) (hv : candPcs l = some v)
    (hge : 10000 ≤ v) : qtyStep none l = firstValid [candNum l, candQty l] := by
  have hnot : ¬(0 < v ∧ v < 10000) := fun hh => absurd hh.2 (not_lt.mpr hge)
  unfold qtyStep
  rw [hv]
  cases hB : candNum l with
  | some b =>
    by_cases hb : 0 < b ∧ b < 10000
    · simp [firstValid, hnot, hb]
    · cases hC : candQty l with
      | some c => simp [firstValid, hnot, hb, hC]
      | none => simp [firstValid, hnot, hb, hC]
  | none =>
    cases hC : candQty l with
    | some c => simp [firstValid, hnot, hC]
    | none => simp [firstValid, hnot, hC]

/-! ### Field characterisation of an item with a same-line quantity -/

theorem processItem_fields (lines : List Line) (n i : Nat) (num raw0 : Line)
    (q : ℚ) (nm : Line) (h : sameLine raw0 = (some q, nm)) :
    (processItem lines n i num raw0).1.item_number = num ∧
    (processItem lines n i num raw0).1.quantity = q ∧
    (processItem lines n i num raw0).1.name = cleanupName nm := by
  unfold processItem
  rw [h]
  refine ⟨rfl, ?_, rfl⟩
  simp only []
  rw [laLoop_qty_some]
  rfl

/-! ### Claim theorems -/

/-- C1 (corrected): for every item-start line of a document, when the
leftmost match of the pattern digits-dot-three-digits inside the
provisional name sits at offset `idx` with matched text `tok`, the parser
emits an item for that line whose quantity is exactly the numeric value of
`tok` and whose name is the text before the match with the trailing column
block stripped; in particular the line `00010 Blue Widget 36.000 154.00`
yields the item with number `00010`, name `Blue Widget` and quantity 36.
The original claim speaks of a token with exactly three decimals, but the
code takes the leftmost pattern match, which can be a proper prefix of an
earlier token with four or more decimals (see the counterexample). -/
theorem c1_same_line_three_decimal :
    (∀ (text : Line) (t : Nat) (num raw0 tok : Line) (idx : Nat),
        t < (prepLines text).length →
        is_item_start (lineAt (prepLines text) t) = some (num, raw0) →
        find3dec raw0 = some (idx, tok) →
        ∃ it, it ∈ parse_items_from_text text ∧
          it.item_number = num ∧
          it.quantity = to_float tok ∧
          it.name = cleanupName (pyStrip (raw0.take idx))) ∧
    parse_items_from_text (("00010 Blue Widget 36.000 154.00").data) =
      [⟨("00010").data, ("Blue Widget").data, 36, []⟩] := by
  constructor
  · intro text t num raw0 tok idx h1 h2 h3
    have hsl : sameLine raw0 = (some (to_float tok), pyStrip (raw0.take idx)) := by
      unfold sameLine
      rw [h3]
    obtain ⟨ha, hb, hc⟩ :=
      processItem_fields (prepLines text) (prepLines text).length t num raw0 _ _ hsl
    refine ⟨(processItem (prepLines text) (prepLines text).length t num raw0).1,
      ?_, ha, hb, hc⟩
    unfold parse_items_from_text
    exact mem_scan_of_start (prepLines text) t num raw0 h2 h1 (prepLines text).length 0
      (Nat.zero_le t) (by omega)
  · decide

/-- C1 counterexample: the item-start line `00010 Widget 2.5000 36.000`
contains the token `36.000` with exactly three decimal digits, yet the
parser returns quantity `5/2`, because the leftmost match of the pattern
is `2.500`, a prefix of the four-decimal token `2.5000`. -/
theorem c1_counterexample :
    parse_items_from_text (("00010 Widget 2.5000 36.000").data) =
      [⟨("00010").data, ("Widget").data, mkRat 5 2, []⟩] ∧
    mkRat 5 2 ≠ 36 := by
  exact ⟨by decide, by decide⟩

theorem c1_witness :
    ∃ it, it ∈ parse_items_from_text (("00010 Blue Widget 36.000 154.00").data) ∧
      it.item_number = ("00010").data ∧
      it.quantity = to_float (("36.000").data) ∧
      it.name = cleanupName (pyStrip ((("Blue Widget 36.000 154.00").data).take 12)) :=
  c1_same_line_three_decimal.1 (("00010 Blue Widget 36.000 154.00").data) 0
    (("00010").data) (("Blue Widget 36.000 154.00").data) (("36.000").data) 12
    (by decide) (by decide) (by decide)

/-- C2: during look-ahead the per-line quantity update equals the
spec-worded priority selection (a) number with unit token, (b) whole-line
number, (c) labelled number, each accepted only for values in (0, 10000);
once set, the quantity is never changed; and a unit-token candidate of at
least 10000 is rejected, falling through to the later strategies. -/
theorem c2_lookahead_priority :
    (∀ l : Line, qtyStep none l = specQtyPriority l) ∧
    (∀ (q : ℚ) (l : Line), qtyStep (some q) l = some q) ∧
    (∀ (l : Line) (v : ℚ), candPcs l = some v → 10000 ≤ v →
        qtyStep none l = firstValid [candNum l, candQty l]) :=
  ⟨qtyStep_none_eq, qtyStep_some, qtyStep_none_reject⟩

theorem c2_witness :
    qtyStep none (("36.000").data) = specQtyPriority (("36.000").data) ∧
    qtyStep (some 7) (("x").data) = some 7 ∧
    qtyStep none (("20000 Pcs").data) =
      firstValid [candNum (("20000 Pcs").data), candQty (("20000 Pcs").data)] :=
  ⟨c2_lookahead_priority.1 _, c2_lookahead_priority.2.1 7 _,
   c2_lookahead_priority.2.2 (("20000 Pcs").data) 20000 (by decide) (by decide)⟩

/-- C3: the look-ahead recovers a secondary code either as one token (the
literal prefix immediately followed by digits, with word boundaries) or
split across lines (the prefix on a digit-free line, digits supplied by a
next line of five or more pure digits, which is consumed by advancing the
cursor past it); the scenario line `20045 Steel Bolt` followed two lines
later by `DIY28045` and a standalone `48` yields the item with number
`20045`, name `Steel Bolt`, quantity 48 and code `DIY28045`. -/
theorem c3_secondary_code :
    parse_items_from_text (("20045 Steel Bolt\nMaterial\nDIY28045\n48").data) =
      [⟨("20045").data, ("Steel Bolt").data, 48, ("DIY28045").data⟩] ∧
    (∀ (lines : List Line) (n j : Nat) (d : Line),
        diySearch (lineAt lines j) = some d →
        diyDetect lines n j [] = (d, j)) ∧
    (∀ (lines : List Line) (n j : Nat),
        diySearch (lineAt lines j) = none →
        hasSubstr (("DIY").data) (lineAt lines j) = true →
        hasDigit (lineAt lines j) = false →
        j + 1 < n →
        fullDigits5 (lineAt lines (j + 1)) = true →
        diyDetect lines n j [] =
          ((("DIY").data) ++ pyStrip (lineAt lines (j + 1)), j + 1)) ∧
    (∀ (l d : Line), diySearch l = some d →
        ∃ ds, d = 'D' :: 'I' :: 'Y' :: ds ∧ ds ≠ [] ∧ ds.all Char.isDigit = true) := by
  refine ⟨by decide, ?_, ?_, diySearch_shape⟩
  · intro lines n j d h
    simp [diyDetect, h]
  · intro lines n j h1 h2 h3 h4 h5
    simp [diyDetect, h1, h2, h3, h4, h5]

theorem c3_witness :
    diyDetect [("x").data, ("DIY28045").data] 2 1 [] = (("DIY28045").data, 1) ∧
    diyDetect [("x").data, ("CODE DIY").data, ("28045").data] 3 1 [] =
      ((("DIY").data) ++ pyStrip (("28045").data), 2) ∧
    (∃ ds, ("DIY28045").data = 'D' :: 'I' :: 'Y' :: ds ∧ ds ≠ [] ∧
      ds.all Char.isDigit = true) :=
  ⟨c3_secondary_code.2.1 [("x").data, ("DIY28045").data] 2 1 (("DIY28045").data) (by decide),
   c3_secondary_code.2.2.1 [("x").data, ("CODE DIY").data, ("28045").data] 3 1
     (by decide) (by decide) (by decide) (by decide) (by decide),
   c3_secondary_code.2.2.2 (("DIY28045").data) (("DIY28045").data) (by decide)⟩

/-- C4: when filenames are pairwise distinct and no document contributes
two items with the same key, every aggregate entry satisfies
`total_quantity = sum of quantity_by_document`; and when a key repeats
within one document, the per-document cell is overwritten to the last
quantity while the total accumulates both, which is the only way the
invariant can break. -/
theorem c4_total_invariant :
    (∀ rs : List DocumentResult,
        (rs.map DocumentResult.filename).Nodup →
        (∀ r ∈ rs, (r.items.map itemKey).Nodup) →
        ∀ k, (aggregateResults rs k).total_quantity =
          sumVals (aggregateResults rs k).quantities_per_po) ∧
    (∀ (f num1 num2 nm d : Line) (q1 q2 : ℚ),
        (aggregateResults [⟨f, true, [⟨num1, nm, q1, d⟩, ⟨num2, nm, q2, d⟩], []⟩]
            (itemKey ⟨num1, nm, q1, d⟩)).total_quantity = q1 + q2 ∧
        (aggregateResults [⟨f, true, [⟨num1, nm, q1, d⟩, ⟨num2, nm, q2, d⟩], []⟩]
            (itemKey ⟨num1, nm, q1, d⟩)).quantities_per_po = [(f, q2)]) := by
  constructor
  · intro rs hnd hkeys k
    unfold aggregateResults
    exact aggregate_inv rs (fun _ => emptyEntry) [] (fun _ => rfl)
      (fun _ p hp => absurd hp (List.not_mem_nil p)) hnd
      (fun r _ => List.not_mem_nil r.filename) hkeys k
  · intro f num1 num2 nm d q1 q2
    constructor
    · simp [aggregateResults, foldResult, foldItem, itemKey, dictSet, emptyEntry]
    · simp [aggregateResults, foldResult, foldItem, itemKey, dictSet, emptyEntry]

theorem c4_witness :
    ((aggregateResults [⟨("a").data, true, [⟨("001").data, ("W").data, 5, []⟩], []⟩,
        ⟨("b").data, true, [⟨("002").data, ("W").data, 7, []⟩], []⟩]
        (("W").data)).total_quantity =
      sumVals ((aggregateResults [⟨("a").data, true, [⟨("001").data, ("W").data, 5, []⟩], []⟩,
        ⟨("b").data, true, [⟨("002").data, ("W").data, 7, []⟩], []⟩]
        (("W").data)).quantities_per_po)) ∧
    ((aggregateResults [⟨("a").data, true,
        [⟨("001").data, ("W").data, 5, []⟩, ⟨("002").data, ("W").data, 7, []⟩], []⟩]
        (itemKey ⟨("001").data, ("W").data, 5, []⟩)).total_quantity = 5 + 7 ∧
      (aggregateResults [⟨("a").data, true,
        [⟨("001").data, ("W").data, 5, []⟩, ⟨("002").data, ("W").data, 7, []⟩], []⟩]
        (itemKey ⟨("001").data, ("W").data, 5, []⟩)).quantities_per_po =
        [(("a").data, 7)]) :=
  ⟨c4_total_invariant.1 _ (by decide) (by decide) (("W").data),
   c4_total_invariant.2 (("a").data) (("001").data) (("002").data) (("W").data) [] 5 7⟩

/-- C5: aggregation is order-independent for the total: folding any
permutation of the same document results yields the same final
`total_quantity` at every key. -/
theorem c5_order_independent (rs rs2 : List DocumentResult) (h : rs.Perm rs2)
    (k : Line) :
    (aggregateResults rs k).total_quantity = (aggregateResults rs2 k).total_quantity := by
  unfold aggregateResults
  rw [aggregate_total k rs, aggregate_total k rs2]
  congr 1
  exact List.Perm.sum_eq (List.Perm.map (docTotal k) h)

theorem c5_witness :
    (aggregateResults [⟨("a").data, true, [⟨("001").data, ("W").data, 5, []⟩], []⟩,
        ⟨("b").data, true, [⟨("002").data, ("W").data, 7, []⟩], []⟩]
        (("W").data)).total_quantity =
    (aggregateResults [⟨("b").data, true, [⟨("002").data, ("W").data, 7, []⟩], []⟩,
        ⟨("a").data, true, [⟨("001").data, ("W").data, 5, []⟩], []⟩]
        (("W").data)).total_quantity :=
  c5_order_independent _ _ (List.Perm.swap _ _ _) (("W").data)

/-- C6 (corrected): on an item-start line with no three-decimal token, the
same-line unit branch matches only the token `Pcs` (case-insensitive), not
`Pieces`, `Piece` or `P.cs`: when the leftmost number-then-`Pcs` match is
at offset `idx` with number group `g`, the quantity is the value of `g`
and the name is the line truncated at the match start, with the trailing
column cleanup.  The original claim admits all four unit tokens here; the
counterexample shows `Pieces` does not trigger the same-line branch. -/
theorem c6_same_line_pcs :
    ∀ (text : Line) (t : Nat) (num raw0 g : Line) (idx : Nat),
      t < (prepLines text).length →
      is_item_start (lineAt (prepLines text) t) = some (num, raw0) →
      find3dec raw0 = none →
      findPcs1 raw0 = some (idx, g) →
      ∃ it, it ∈ parse_items_from_text text ∧
        it.item_number = num ∧
        it.quantity = to_float g ∧
        it.name = cleanupName (pyStrip (raw0.take idx)) := by
  intro text t num raw0 g idx h1 h2 h3 h4
  have hsl : sameLine raw0 = (some (to_float g), pyStrip (raw0.take idx)) := by
    unfold sameLine
    rw [h3, h4]
  obtain ⟨ha, hb, hc⟩ :=
    processItem_fields (prepLines text) (prepLines text).length t num raw0 _ _ hsl
  refine ⟨(processItem (prepLines text) (prepLines text).length t num raw0).1,
    ?_, ha, hb, hc⟩
  unfold parse_items_from_text
  exact mem_scan_of_start (prepLines text) t num raw0 h2 h1 (prepLines text).length 0
    (Nat.zero_le t) (by omega)

/-- C6 counterexample: the item-start line `20045 Widget 3 Pieces` has a
number immediately followed by the unit token `Pieces`, yet the parser
leaves the quantity at the default 0 and the name untruncated, because the
same-line branch only recognises `Pcs`. -/
theorem c6_counterexample :
    parse_items_from_text (("20045 Widget 3 Pieces").data) =
      [⟨("20045").data, ("Widget 3 Pieces").data, 0, []⟩] ∧
    (0 : ℚ) ≠ 3 := by
  exact ⟨by decide, by decide⟩

theorem c6_witness :
    ∃ it, it ∈ parse_items_from_text (("00010 Gadget 12 Pcs extra").data) ∧
      it.item_number = ("00010").data ∧
      it.quantity = to_float (("12").data) ∧
      it.name = cleanupName (pyStrip ((("Gadget 12 Pcs extra").data).take 7)) :=
  c6_same_line_pcs (("00010 Gadget 12 Pcs extra").data) 0 (("00010").data)
    (("Gadget 12 Pcs extra").data) (("12").data) 7
    (by decide) (by decide) (by decide) (by decide)

/-- C7 (corrected): the location pattern demands a 2-3 letter uppercase
code chained through a separator to at least one further uppercase
segment; whenever the line after the first `Vendor` label (which must be
newline-terminated) contains such a match, the metadata holds the
`vendor_location` key with the matched chain as value.  The original
claim also admits a bare code without any chained segment; the
counterexample shows a bare `KHI` yields no key. -/
theorem c7_vendor_location (text l m : Line)
    (h1 : vendorNextLine text = some l)
    (h2 : locSearch (pyStrip l) = some m) :
    ((("vendor_location").data : Line), pyStrip m) ∈ extract_po_metadata text := by
  simp [extract_po_metadata, h1, h2]

/-- C7 counterexample: the line after `Vendor` is the bare three-letter
uppercase code `KHI`, yet the metadata contains no `vendor_location`
key. -/
theorem c7_counterexample :
    vendorNextLine (("Vendor X\nKHI\nz\n").data) = some (("KHI").data) ∧
    (("vendor_location").data : Line) ∉
      (extract_po_metadata (("Vendor X\nKHI\nz\n").data)).map Prod.fst := by
  exact ⟨by decide, by decide⟩

theorem c7_witness :
    ((("vendor_location").data : Line), pyStrip (("KHI - WEST").data)) ∈
      extract_po_metadata (("Vendor A\nKHI - WEST\nz\n").data) :=
  c7_vendor_location (("Vendor A\nKHI - WEST\nz\n").data) (("KHI - WEST").data)
    (("KHI - WEST").data) (by decide) (by decide)

/-- C8: a document result has `success = true` exactly when at least one
item was parsed; a document whose two extraction strategies both return
empty text is recorded as a failure with empty items and metadata,
contributes nothing to the aggregate map, and the remaining documents are
still processed. -/
theorem c8_success_iff_items :
    (∀ inp : PdfInput,
        (process_single_pdf inp).success = true ↔ (process_single_pdf inp).items ≠ []) ∧
    (∀ (fn : Line) (rest : List PdfInput),
        process_single_pdf ⟨fn, [], []⟩ = ⟨fn, false, [], []⟩ ∧
        (process_all_pdfs (⟨fn, [], []⟩ :: rest)).1 =
          ⟨fn, false, [], []⟩ :: (process_all_pdfs rest).1 ∧
        (∀ k, (process_all_pdfs (⟨fn, [], []⟩ :: rest)).2 k =
          (process_all_pdfs rest).2 k)) := by
  constructor
  · intro inp
    simp only [process_single_pdf]
    split
    · split
      · simp
      · generalize parse_items_from_text _ = its
        cases its <;> simp
    · generalize parse_items_from_text _ = its
      cases its <;> simp
  · intro fn rest
    exact ⟨rfl, rfl, fun k => rfl⟩

/-- C9: a text none of whose prepared lines is an item-start line parses
to the empty item list. -/
theorem c9_no_item_start_empty (text : Line)
    (h : ∀ l ∈ prepLines text, is_item_start l = none) :
    parse_items_from_text text = [] := by
  unfold parse_items_from_text
  exact scanLoop_nil (prepLines text) h (prepLines text).length 0

theorem c9_witness : parse_items_from_text (("Hello\nWorld 42").data) = [] :=
  c9_no_item_start_empty (("Hello\nWorld 42").data) (by decide)

/-- C10: the parser terminates on every text because the cursor strictly
increases: the look-ahead position never moves backwards and starts at
`i + 1`, so after an item the cursor advances by at least one, and on a
non-item line it advances by one; consequently the fuelled scan loop is
stable for any fuel of at least `n - i`, which is the well-foundedness of
the source loop. -/
theorem c10_termination :
    (∀ (lines : List Line) (n wE fuel j : Nat) (d : Line) (q : Option ℚ),
        j ≤ (laLoop lines n wE fuel j d q).1) ∧
    (∀ (lines : List Line) (n wE fuel i : Nat) (d : Line) (q : Option ℚ),
        i + 1 ≤ (laLoop lines n wE fuel (i + 1) d q).1) ∧
    (∀ (lines : List Line) (f1 f2 i : Nat),
        lines.length - i ≤ f1 → lines.length - i ≤ f2 →
        scanLoop lines lines.length f1 i = scanLoop lines lines.length f2 i) :=
  ⟨fun lines n wE fuel j d q => laLoop_j_mono lines n wE fuel j d q,
   fun lines n wE fuel i d q => laLoop_j_mono lines n wE fuel (i + 1) d q,
   fun lines f1 f2 i h1 h2 => scan_stable lines f1 f2 i h1 h2⟩

theorem c10_witness :
    0 + 1 ≤ (laLoop [("48").data] 1 1 1 (0 + 1) [] none).1 ∧
    scanLoop [("00010 X 36.000").data] ([("00010 X 36.000").data]).length 2 0 =
      scanLoop [("00010 X 36.000").data] ([("00010 X 36.000").data]).length 3 0 :=
  ⟨c10_termination.2.1 [("48").data] 1 1 1 0 [] none,
   c10_termination.2.2 [("00010 X 36.000").data] 2 3 0 (by decide) (by decide)⟩

end BulkPOItemExtractor
